import Mathlib

/-!
Shallow embedding of the retrieval core of the RAG chatbot
(`src/hooks/useRAG.ts`): the chunker `chunkText`, the lexical similarity
scorer `calculateSimilarity`, the retriever `retrieveRelevantChunks`, and
the store operations `addDocument` / `deleteDocument`.

Strings are embedded as `List Char`.  JavaScript numbers are embedded as
`ℚ`; the one place the source can produce `NaN` (the Jaccard quotient
`0 / 0` when both distinct-token sets are empty) is embedded as `Option ℚ`
with `none` standing for `NaN`, and the JS comparisons `NaN > x` (always
false) are reproduced by the `Option`-aware comparisons below.
`Array.prototype.sort` (stable since ES2019) is embedded as the stable
`List.mergeSort`.  Character classes model the ASCII behaviour of the JS
regexes `\W`, `\s` and of `toLowerCase`, which is what every claim
exercises.
-/

attribute [local semireducible] Rat.add

namespace RAG

abbrev Str := List Char

/-- Coerce a Lean string literal to the `List Char` embedding. -/
def str (s : String) : Str := s.data

/-- The JS regex word class `\w` = `[A-Za-z0-9_]`. -/
def isWordChar (c : Char) : Bool :=
  ('a' ≤ c && c ≤ 'z') || ('A' ≤ c && c ≤ 'Z') || ('0' ≤ c && c ≤ '9') || c = '_'

/-- The JS whitespace class `\s` (ASCII part, plus NBSP and BOM). -/
def isSpaceJS (c : Char) : Bool :=
  c = ' ' || c = '\t' || c = '\n' || c = '\r' || c.val = 11 || c.val = 12 ||
  c.val = 0xa0 || c.val = 0xfeff

/-- The sentence-terminator class `[.!?]` used by `chunkText`. -/
def isPunctJS (c : Char) : Bool :=
  c = '.' || c = '!' || c = '?'

/-- `String.prototype.toLowerCase` (ASCII case folding). -/
def lower (s : Str) : Str := s.map Char.toLower

/-- Does the string start with a separator character? (helper for `splitRuns`). -/
def headIsSep (p : Char → Bool) : Str → Bool
  | [] => false
  | d :: _ => p d

/-- `String.prototype.split` on the regex `[p]+`: fields between maximal
runs of separator characters, keeping empty leading/trailing fields,
exactly as JS does (`"".split` gives `[""]`, `"a.".split` gives `["a",""]`). -/
def splitRuns (p : Char → Bool) : Str → List Str
  | [] => [[]]
  | c :: cs =>
    if p c then
      if headIsSep p cs then splitRuns p cs else [] :: splitRuns p cs
    else
      (splitRuns p cs).modifyHead (c :: ·)

/-- `String.prototype.split(' ')` on a single separator character
(no run merging: `"a  b".split(' ')` is `["a","","b"]`). -/
def splitChar (sep : Char) : Str → List Str
  | [] => [[]]
  | c :: cs =>
    if c = sep then [] :: splitChar sep cs
    else (splitChar sep cs).modifyHead (c :: ·)

/-- `Array.prototype.join(' ')`. -/
def joinSpace (l : List Str) : Str := List.intercalate [' '] l

/-- `String.prototype.trim`. -/
def jsTrim (s : Str) : Str :=
  ((s.dropWhile isSpaceJS).reverse.dropWhile isSpaceJS).reverse

/-- `arr.slice(-k)` for `k > 0` (the last `k` elements) and `arr.slice(-0)`
(= `arr.slice(0)`, the whole array) — the source computes `k = overlap / 10`. -/
def jsSliceLast (k : Nat) (l : List α) : List α :=
  if k = 0 then l else l.drop (l.length - k)

/-- Does the needle start the haystack? (helper for `jsIncludes`). -/
def startsList : Str → Str → Bool
  | [], _ => true
  | _ :: _, [] => false
  | a :: as, b :: bs => a = b && startsList as bs

/-- `String.prototype.includes`. -/
def jsIncludes (hay needle : Str) : Bool :=
  startsList needle hay ||
    match hay with
    | [] => false
    | _ :: t => jsIncludes t needle

/-- The `'. '` joiner used when accumulating sentences into a chunk. -/
def sepDot : Str := ['.', ' ']

/-- The sentence-accumulation loop of `chunkText` (lines 38–47 of
`useRAG.ts`): returns the flushed chunks and the final buffer.
`k` is the precomputed word-overlap count `overlap / 10`. -/
def chunkLoop (cs k : Nat) : List Str → Str → List Str × Str
  | [], cur => ([], cur)
  | s :: rest, cur =>
    if cur.length + s.length > cs ∧ cur.length > 0 then
      let seed := joinSpace (jsSliceLast k (splitChar ' ' cur)) ++ ' ' :: s
      let r := chunkLoop cs k rest seed
      (jsTrim cur :: r.1, r.2)
    else
      chunkLoop cs k rest (if cur.isEmpty then s else cur ++ sepDot ++ s)

/-- `chunkText(text, chunkSize = 500, overlap = 50)` from `useRAG.ts`:
split into sentences at `[.!?]+`, drop blank sentences, accumulate with
overlap, flush the remaining buffer, and fall back to `[text]` when no
chunk was produced. -/
def chunkText (text : Str) (cs : Nat := 500) (ov : Nat := 50) : List Str :=
  let sentences := (splitRuns isPunctJS text).filter (fun s => (jsTrim s).length > 0)
  let r := chunkLoop cs (ov / 10) sentences []
  let cks := if (jsTrim r.2).isEmpty then r.1 else r.1 ++ [jsTrim r.2]
  if cks.isEmpty then [text] else cks

/-- Tokenization used by the scorer: lowercase, split on `\W+`, keep
tokens of length `> 2`. -/
def tokenize (s : Str) : List Str :=
  (splitRuns (fun c => !isWordChar c) (lower s)).filter (fun w => w.length > 2)

/-- Character classes for the bigram regex `\b\w+\s+\w+\b`. -/
inductive RunClass where
  | word
  | space
  | other
deriving DecidableEq

/-- Classify a character for the bigram regex. -/
def classOf (c : Char) : RunClass :=
  if isWordChar c then .word else if isSpaceJS c then .space else .other

/-- Maximal same-class runs of a string (adjacent equal classes merged). -/
def toRuns : Str → List (RunClass × Str)
  | [] => []
  | c :: cs =>
    match toRuns cs with
    | [] => [(classOf c, [c])]
    | (k, r) :: rest =>
      if classOf c = k then (k, c :: r) :: rest
      else (classOf c, [c]) :: (k, r) :: rest

/-- The global, non-overlapping scan of `query.match(/\b\w+\s+\w+\b/g)`:
each match consumes word-run, space-run, word-run, and the next search
resumes after the consumed second word. -/
def scanPhrases : List (RunClass × Str) → List Str
  | (.word, w1) :: (.space, sp) :: (.word, w2) :: rest =>
      (w1 ++ sp ++ w2) :: scanPhrases rest
  | _ :: rest => scanPhrases rest
  | [] => []

/-- `query.toLowerCase().match(/\b\w+\s+\w+\b/g) || []` from `useRAG.ts`
(the string is lowercased by the caller). -/
def extractPhrases (s : Str) : List Str := scanPhrases (toRuns s)

/-- The phrase-boost loop of `calculateSimilarity` (lines 71–77 of
`useRAG.ts`): `+ 0.3` for each extracted phrase found in the text. -/
def phraseBoost (query text : Str) : ℚ :=
  (extractPhrases (lower query)).foldl
    (fun acc ph => if jsIncludes (lower text) ph then acc + mkRat 3 10 else acc) (mkRat 0 1)

/-- `Math.min` on two (non-`NaN`) numbers. -/
def jsMin (a b : ℚ) : ℚ := if a ≤ b then a else b

/-- `calculateSimilarity(query, text)` from `useRAG.ts`: Jaccard
similarity of the distinct filtered token sets plus the phrase boost,
clamped by `Math.min(·, 1)`.  When the union is empty the JS quotient is
`0 / 0 = NaN`, which poisons the sum and the `min`; that is the `none`
branch. -/
def calculateSimilarity (query text : Str) : Option ℚ :=
  let qSet := (tokenize query).dedup
  let tSet := (tokenize text).dedup
  let inter := qSet.filter (fun w => w ∈ tSet)
  let union := (qSet ++ tSet).dedup
  if union.length = 0 then none
  else some (jsMin (mkRat inter.length union.length + phraseBoost query text) (mkRat 1 1))

/-- The JS strict comparison `a > b` on possibly-`NaN` scores:
false whenever either side is `NaN`. -/
def scoreGt (a b : Option ℚ) : Bool :=
  match a, b with
  | some x, some y => y < x
  | _, _ => false

/-- The `Document` record of `useRAG.ts` (`uploadedAt` as an integer
timestamp, as produced by `Date.now()`). -/
structure Document where
  id : Str
  title : Str
  content : Str
  chunks : List Str
  uploadedAt : Nat
  size : Nat
deriving DecidableEq

/-- An entry of the `allChunks` candidate array built by
`retrieveRelevantChunks`. -/
structure Candidate where
  chunk : Str
  docTitle : Str
  score : ℚ
deriving DecidableEq

/-- The `Source` record of `useRAG.ts`. -/
structure Source where
  title : Str
  content : Str
  relevance : ℚ
deriving DecidableEq

/-- Lines 86–97 of `useRAG.ts`: for every chunk of every document, in
store order, keep the chunks whose score clears the `0.1` threshold
(`NaN > 0.1` is false, so `NaN`-scored chunks are dropped). -/
def collectCandidates (docs : List Document) (query : Str) : List Candidate :=
  docs.flatMap (fun doc =>
    doc.chunks.filterMap (fun ch =>
      match calculateSimilarity query ch with
      | none => none
      | some sc => if mkRat 1 10 < sc then some ⟨ch, doc.title, sc⟩ else none))

/-- The comparator `(a, b) => b.score - a.score`: `a` may stay before `b`
exactly when `b.score ≤ a.score`. -/
def candLE (a b : Candidate) : Bool := b.score ≤ a.score

/-- The element count kept by `arr.slice(0, topK)` on an array of length
`len`: `topK` when `topK ≥ 0`, and `len + topK` (clamped at 0) when
`topK < 0`. -/
def jsSliceBound (k : Int) (len : Nat) : Nat :=
  if 0 ≤ k then k.toNat else len - (-k).toNat

/-- Projection of a candidate to a `Source` (lines 103–107 of `useRAG.ts`). -/
def toSource (c : Candidate) : Source :=
  ⟨c.docTitle, c.chunk, c.score⟩

/-- `retrieveRelevantChunks(query, topK = 3)` from `useRAG.ts`: collect
candidates above the threshold, sort by score descending with the stable
ES2019 `Array.prototype.sort`, `slice(0, topK)`, and project to `Source`s. -/
def retrieveRelevantChunks (docs : List Document) (query : Str) (topK : Int := 3) :
    List Source :=
  let sorted := (collectCandidates docs query).mergeSort candLE
  (sorted.take (jsSliceBound topK sorted.length)).map toSource

/-- The number of UTF-16 code units of a string: the value of the JS
`content.length` used for the `size` field. -/
def utf16Length (s : Str) : Nat :=
  (s.map (fun c => if c.val < 0x10000 then 1 else 2)).sum

/-- The UTF-8 byte length of a string (the "byte length of rawContent"
that the spec ascribes to `sizeBytes`). -/
def utf8Length (s : Str) : Nat :=
  (s.map (fun c => c.utf8Size)).sum

/-- `addDocument(title, content)` from `useRAG.ts`, with the ambient
`Date.now()` passed explicitly as `now`: the id is the decimal string of
`now`, and `size` is `content.length`. -/
def addDocument (now : Nat) (title content : Str) (docs : List Document) :
    List Document :=
  docs ++ [{ id := (Nat.repr now).data, title := title, content := content,
             chunks := chunkText content, uploadedAt := now,
             size := utf16Length content }]

/-- `deleteDocument(id)` from `useRAG.ts`. -/
def deleteDocument (id : Str) (docs : List Document) : List Document :=
  docs.filter (fun d => decide (d.id ≠ id))

/-- Modelled from the spec (§4.2 step 4, the wording of the phrase-boost
claim): "all adjacent two-word sequences" of the query — every
word-space-word window of the run sequence, advancing by one word at a
time, so overlapping bigrams are all listed.  This is the comparison
definition for the refinement claim about the phrase boost; the source's
actual extraction is `scanPhrases`. -/
def allAdjacentPhrases : List (RunClass × Str) → List Str
  | (.word, w1) :: (.space, sp) :: rest2 =>
    (match rest2 with
     | (.word, w2) :: _ => [w1 ++ sp ++ w2]
     | _ => []) ++ allAdjacentPhrases rest2
  | _ :: rest => allAdjacentPhrases rest
  | [] => []

/-- `a` is an initial segment of `b`. -/
def listLeads (a b : List α) : Prop := ∃ t, a ++ t = b

/-! ## Helper lemmas -/

theorem foldl_boost (P : Str → Bool) (l : List Str) (a : ℚ) :
    l.foldl (fun acc ph => if P ph then acc + mkRat 3 10 else acc) a
      = a + ((l.filter P).length : ℚ) * mkRat 3 10 := by
  induction l generalizing a with
  | nil => simp
  | cons ph l ih =>
    rw [List.foldl_cons, List.filter_cons]
    by_cases h : P ph
    · rw [if_pos h, if_pos h, ih]
      push_cast [List.length_cons]
      ring
    · rw [if_neg h, if_neg h, ih]

theorem mkRat_natCast_nonneg (a b : Nat) : (0 : ℚ) ≤ mkRat (a : Int) b := by
  rw [Rat.mkRat_eq_divInt, Rat.divInt_eq_div]
  positivity

theorem phraseBoost_eq_count (q t : Str) :
    phraseBoost q t
      = (((extractPhrases (lower q)).filter (fun ph => jsIncludes (lower t) ph)).length : ℚ)
          * mkRat 3 10 := by
  unfold phraseBoost
  rw [foldl_boost]
  simp

theorem phraseBoost_nonneg (q t : Str) : 0 ≤ phraseBoost q t := by
  rw [phraseBoost_eq_count]
  exact mul_nonneg (by positivity) (mkRat_natCast_nonneg 3 10)

theorem mkRat_one_one : (mkRat 1 1 : ℚ) = 1 := by
  rw [Rat.mkRat_one]
  norm_num

/-! ## C1 -/

/-- C1: corrected form.  For every query `q` and text `t`, the similarity
score is a rational in `[0, 1]` whenever it is a number at all, and it is
`NaN` (`none`) exactly when both filtered distinct-token sets are empty —
the source has no guard for the `0 / 0` Jaccard quotient, so the
degenerate case yields `NaN`, not `0`. -/
theorem calculateSimilarity_range (q t : Str) :
    (calculateSimilarity q t = none ↔ (tokenize q = [] ∧ tokenize t = [])) ∧
    (∀ s : ℚ, calculateSimilarity q t = some s → 0 ≤ s ∧ s ≤ 1) := by
  unfold calculateSimilarity
  by_cases hU : (((tokenize q).dedup ++ (tokenize t).dedup).dedup).length = 0
  · rw [if_pos hU]
    refine ⟨⟨fun _ => ?_, fun _ => rfl⟩, fun s hs => by cases hs⟩
    have h1 : ((tokenize q).dedup ++ (tokenize t).dedup).dedup = [] :=
      List.length_eq_zero.mp hU
    have h2 := (List.dedup_eq_nil _).mp h1
    obtain ⟨h3, h4⟩ := List.append_eq_nil.mp h2
    exact ⟨(List.dedup_eq_nil _).mp h3, (List.dedup_eq_nil _).mp h4⟩
  · rw [if_neg hU]
    constructor
    · constructor
      · intro h
        cases h
      · rintro ⟨h3, h4⟩
        exact absurd (by rw [h3, h4]; rfl) hU
    · intro s hs
      have hs2 : jsMin (mkRat
            (((tokenize q).dedup.filter (fun w => w ∈ (tokenize t).dedup)).length : Int)
            (((tokenize q).dedup ++ (tokenize t).dedup).dedup.length)
          + phraseBoost q t) (mkRat 1 1) = s := by
        injection hs
      have hX : (0 : ℚ) ≤ mkRat
            (((tokenize q).dedup.filter (fun w => w ∈ (tokenize t).dedup)).length : Int)
            (((tokenize q).dedup ++ (tokenize t).dedup).dedup.length)
          + phraseBoost q t :=
        add_nonneg (mkRat_natCast_nonneg _ _) (phraseBoost_nonneg q t)
      rw [← hs2]
      unfold jsMin
      rw [mkRat_one_one]
      split
      · exact ⟨hX, by assumption⟩
      · exact ⟨zero_le_one, le_refl 1⟩

/-- Witness for C1: a concrete in-range score. -/
theorem calculateSimilarity_range_witness : 0 ≤ (1 : ℚ) ∧ (1 : ℚ) ≤ 1 :=
  (calculateSimilarity_range (str "cat") (str "cat")).2 1 (by decide)

/-- Counterexample to C1 as stated: on two empty strings both token sets
are empty and the score is `NaN` (`none`), not the number `0`. -/
theorem calculateSimilarity_empty_cex :
    calculateSimilarity (str "") (str "") = none ∧
    calculateSimilarity (str "") (str "") ≠ some 0 := by
  refine ⟨by decide, by decide⟩

/-! ## C3 -/

/-- Counterexample to C3 as stated: with the default parameters the whole
document becomes a single chunk containing both phrases, so no chunk
containing "cat sat on the mat" scores strictly higher than a chunk
containing "dog ran fast" — they are the same chunk. -/
theorem scenarioA_cex :
    ¬ (∀ c1 ∈ chunkText (str "The cat sat on the mat. The dog ran fast.") 500 50,
        ∀ c2 ∈ chunkText (str "The cat sat on the mat. The dog ran fast.") 500 50,
          jsIncludes c1 (str "cat sat on the mat") = true →
          jsIncludes c2 (str "dog ran fast") = true →
          scoreGt (calculateSimilarity (str "Where did the cat sit?") c1)
            (calculateSimilarity (str "Where did the cat sit?") c2) = true) := by
  decide

/-- C3: corrected form.  Chunking the scenario document with defaults
yields exactly one chunk (containing both phrases); comparing the two
sentences directly, the "cat" sentence scores strictly higher than the
"dog" sentence for the query. -/
theorem scenarioA_amended :
    chunkText (str "The cat sat on the mat. The dog ran fast.") 500 50
      = [str "The cat sat on the mat.  The dog ran fast"] ∧
    jsIncludes (str "The cat sat on the mat.  The dog ran fast")
      (str "cat sat on the mat") = true ∧
    jsIncludes (str "The cat sat on the mat.  The dog ran fast")
      (str "dog ran fast") = true ∧
    scoreGt (calculateSimilarity (str "Where did the cat sit?") (str "The cat sat on the mat"))
      (calculateSimilarity (str "Where did the cat sit?") (str "The dog ran fast")) = true := by
  decide

/-! ## C4 -/

theorem allAdjacent_cons (x : RunClass × Str) (l : List (RunClass × Str)) :
    List.Sublist (allAdjacentPhrases l) (allAdjacentPhrases (x :: l)) := by
  obtain ⟨kx, wx⟩ := x
  cases kx with
  | word =>
    cases l with
    | nil => exact List.Sublist.refl _
    | cons y rest2 =>
      obtain ⟨ky, wy⟩ := y
      cases ky with
      | word => exact List.Sublist.refl _
      | space =>
        show List.Sublist (allAdjacentPhrases rest2) <|
          (match rest2 with
           | (.word, w2) :: _ => [wx ++ wy ++ w2]
           | _ => []) ++ allAdjacentPhrases rest2
        exact List.sublist_append_right _ _
      | other => exact List.Sublist.refl _
  | space => exact List.Sublist.refl _
  | other => exact List.Sublist.refl _

theorem scanPhrases_sublist :
    (l : List (RunClass × Str)) → List.Sublist (scanPhrases l) (allAdjacentPhrases l)
  | [] => List.Sublist.refl _
  | (.word, _) :: (.space, _) :: (.word, w2) :: rest =>
    List.Sublist.cons₂ _
      ((scanPhrases_sublist rest).trans (allAdjacent_cons (.word, w2) rest))
  | (.word, _) :: (.space, sp) :: (.space, w2) :: rest =>
    (scanPhrases_sublist ((.space, sp) :: (.space, w2) :: rest)).trans
      (allAdjacent_cons _ _)
  | (.word, _) :: (.space, sp) :: (.other, w2) :: rest =>
    (scanPhrases_sublist ((.space, sp) :: (.other, w2) :: rest)).trans
      (allAdjacent_cons _ _)
  | (.word, _) :: [(.space, sp)] =>
    (scanPhrases_sublist [(.space, sp)]).trans (allAdjacent_cons _ _)
  | (.word, _) :: (.word, w2) :: rest =>
    (scanPhrases_sublist ((.word, w2) :: rest)).trans (allAdjacent_cons _ _)
  | (.word, _) :: (.other, w2) :: rest =>
    (scanPhrases_sublist ((.other, w2) :: rest)).trans (allAdjacent_cons _ _)
  | [(.word, _)] => (scanPhrases_sublist []).trans (allAdjacent_cons _ _)
  | (.space, _) :: rest => (scanPhrases_sublist rest).trans (allAdjacent_cons _ _)
  | (.other, _) :: rest => (scanPhrases_sublist rest).trans (allAdjacent_cons _ _)

/-- C4: corrected form.  The phrase boost adds `0.3` for each *extracted*
phrase that occurs in the lowercased text, cumulatively; but the global
regex scan extracts a non-overlapping left-to-right subset of the adjacent
two-word sequences (a sublist of all adjacent bigrams), not all of them. -/
theorem phraseBoost_spec (q t : Str) :
    phraseBoost q t
      = (((extractPhrases (lower q)).filter (fun ph => jsIncludes (lower t) ph)).length : ℚ)
          * mkRat 3 10 ∧
    List.Sublist (extractPhrases (lower q)) (allAdjacentPhrases (toRuns (lower q))) :=
  ⟨phraseBoost_eq_count q t, scanPhrases_sublist (toRuns (lower q))⟩

/-- Counterexample to C4 as stated: in the query "cat sat mat" the pair
"sat mat" is an adjacent two-word sequence and occurs verbatim in the text
"sat mat", yet the non-overlapping scan extracts only "cat sat", the boost
is `0`, and the final score is the bare Jaccard value `2/3` instead of the
claimed `min(2/3 + 0.3, 1)`. -/
theorem phrase_extraction_cex :
    str "sat mat" ∈ allAdjacentPhrases (toRuns (lower (str "cat sat mat"))) ∧
    jsIncludes (lower (str "sat mat")) (str "sat mat") = true ∧
    extractPhrases (lower (str "cat sat mat")) = [str "cat sat"] ∧
    phraseBoost (str "cat sat mat") (str "sat mat") = 0 ∧
    calculateSimilarity (str "cat sat mat") (str "sat mat") = some (mkRat 2 3) := by
  decide

/-! ## C8 -/

/-- C8: deleting an id that no stored document has is a no-op that leaves
the store unchanged (same documents, same order). -/
theorem deleteDocument_absent (docs : List Document) (id : Str)
    (h : ∀ d ∈ docs, d.id ≠ id) : deleteDocument id docs = docs := by
  unfold deleteDocument
  exact List.filter_eq_self.mpr (fun d hd => decide_eq_true (h d hd))

/-- Witness for C8 at a concrete store and missing id. -/
theorem deleteDocument_absent_witness :
    deleteDocument (str "2") [⟨str "1", str "t", str "c", [str "c"], 0, 1⟩]
      = [⟨str "1", str "t", str "c", [str "c"], 0, 1⟩] :=
  deleteDocument_absent _ _ (by decide)

/-! ## C9 -/

/-- C9: corrected form.  `addDocument` appends a document whose `size` is
the UTF-16 length of the content (`content.length`, not a byte length) and
whose id is the decimal string of the ambient `Date.now()` timestamp; that
id is unique in the store only under the extra assumption that no stored
document already carries the same timestamp string. -/
theorem addDocument_spec (now : Nat) (title content : Str) (docs : List Document) :
    ∃ d, addDocument now title content docs = docs ++ [d] ∧
      d.size = utf16Length content ∧
      d.id = (Nat.repr now).data ∧
      d.chunks = chunkText content 500 50 ∧
      ((∀ e ∈ docs, e.id ≠ (Nat.repr now).data) → ∀ e ∈ docs, e.id ≠ d.id) :=
  ⟨_, rfl, rfl, rfl, rfl, fun h e he => h e he⟩

/-- Witness for C9's amended statement at concrete inputs. -/
theorem addDocument_spec_witness :
    ∃ d, addDocument 3 (str "t") (str "abc") [] = [] ++ [d] ∧
      d.size = utf16Length (str "abc") ∧
      d.id = (Nat.repr 3).data ∧
      d.chunks = chunkText (str "abc") 500 50 ∧
      ((∀ e ∈ ([] : List Document), e.id ≠ (Nat.repr 3).data) →
        ∀ e ∈ ([] : List Document), e.id ≠ d.id) :=
  addDocument_spec 3 (str "t") (str "abc") []

/-- Counterexample to C9 as stated: two calls in the same millisecond
(`Date.now() = 5`) produce two documents with the same id "5", so the
second document's id is not unique; and for the one-character content "é"
the `size` field is `1` (UTF-16 length) while the UTF-8 byte length of the
content is `2`. -/
theorem addDocument_cex :
    ¬ (∀ e ∈ addDocument 5 (str "a") (str "p") [], e.id ≠ (Nat.repr 5).data) ∧
    (addDocument 5 (str "b") (str "q") (addDocument 5 (str "a") (str "p") [])).map
        Document.id = [str "5", str "5"] ∧
    (addDocument 7 (str "t") (str "é") []).map Document.size = [1] ∧
    utf8Length (str "é") = 2 := by
  refine ⟨by decide, by decide, by decide, by decide⟩

/-! ## C2 -/

theorem collectCandidates_score {docs : List Document} {q : Str} {c : Candidate}
    (hc : c ∈ collectCandidates docs q) : mkRat 1 10 < c.score := by
  unfold collectCandidates at hc
  obtain ⟨doc, _, hc2⟩ := List.mem_flatMap.mp hc
  obtain ⟨ch, _, h3⟩ := List.mem_filterMap.mp hc2
  cases hcs : calculateSimilarity q ch with
  | none => rw [hcs] at h3; cases h3
  | some sc =>
    rw [hcs] at h3
    have h4 : (if mkRat 1 10 < sc
        then some (⟨ch, doc.title, sc⟩ : Candidate) else none) = some c := h3
    by_cases ht : mkRat 1 10 < sc
    · rw [if_pos ht] at h4
      cases h4
      exact ht
    · rw [if_neg ht] at h4
      cases h4

theorem candLE_trans (a b c : Candidate) (h1 : candLE a b) (h2 : candLE b c) :
    candLE a c := by
  simp only [candLE, decide_eq_true_eq] at h1 h2 ⊢
  exact le_trans h2 h1

theorem candLE_total (a b : Candidate) : candLE a b || candLE b a := by
  simp only [candLE, Bool.or_eq_true, decide_eq_true_eq]
  exact le_total _ _

/-- C2: corrected form.  Every returned source strictly clears the `0.1`
threshold; the empty store yields the empty list; when no chunk of any
stored document clears the threshold (the JS comparison `score > 0.1`,
false also for `NaN`), the result is the empty list rather than an error;
and the output has at most `topK` elements for every *nonnegative* `topK`
(for a negative `topK`, `slice(0, topK)` drops `|topK|` elements from the
end instead). -/
theorem retrieve_guarantees (docs : List Document) (q : Str) (k : Int) :
    (∀ src ∈ retrieveRelevantChunks docs q k, mkRat 1 10 < src.relevance) ∧
    (docs = [] → retrieveRelevantChunks docs q k = []) ∧
    ((∀ doc ∈ docs, ∀ ch ∈ doc.chunks,
        scoreGt (calculateSimilarity q ch) (some (mkRat 1 10)) = false) →
      retrieveRelevantChunks docs q k = []) ∧
    (0 ≤ k → ((retrieveRelevantChunks docs q k).length : Int) ≤ k) := by
  refine ⟨?_, ?_, ?_, ?_⟩
  · intro src hsrc
    unfold retrieveRelevantChunks at hsrc
    obtain ⟨c, hcmem, hceq⟩ := List.mem_map.mp hsrc
    have h2 : c ∈ (collectCandidates docs q).mergeSort candLE :=
      List.take_subset _ _ hcmem
    have h3 : c ∈ collectCandidates docs q := List.mem_mergeSort.mp h2
    have h4 := collectCandidates_score h3
    rw [← hceq]
    exact h4
  · rintro rfl
    simp [retrieveRelevantChunks, collectCandidates, List.mergeSort_nil, List.take_nil]
  · intro hno
    have hcand : collectCandidates docs q = [] := by
      unfold collectCandidates
      rw [List.flatMap_eq_nil_iff]
      intro doc hdoc
      rw [List.filterMap_eq_nil_iff]
      intro ch hch
      have hfalse := hno doc hdoc ch hch
      cases hcs : calculateSimilarity q ch with
      | none => rfl
      | some sc =>
        rw [hcs] at hfalse
        have hlt : ¬ mkRat 1 10 < sc := by
          simpa [scoreGt] using hfalse
        show (if mkRat 1 10 < sc
            then some (⟨ch, doc.title, sc⟩ : Candidate) else none) = none
        rw [if_neg hlt]
    unfold retrieveRelevantChunks
    rw [hcand]
    simp [List.mergeSort_nil, List.take_nil]
  · intro hk
    unfold retrieveRelevantChunks
    rw [List.length_map]
    have h1 : (((collectCandidates docs q).mergeSort candLE).take
          (jsSliceBound k (((collectCandidates docs q).mergeSort candLE).length))).length
        ≤ jsSliceBound k (((collectCandidates docs q).mergeSort candLE).length) := by
      rw [List.length_take]
      exact min_le_left _ _
    have h2 : jsSliceBound k (((collectCandidates docs q).mergeSort candLE).length)
        = k.toNat := by
      unfold jsSliceBound
      rw [if_pos hk]
    rw [h2] at h1
    calc ((((collectCandidates docs q).mergeSort candLE).take
          (jsSliceBound k (((collectCandidates docs q).mergeSort candLE).length))).length : Int)
        ≤ (k.toNat : Int) := by rw [h2]; exact_mod_cast h1
      _ = k := Int.toNat_of_nonneg hk

/-- Witness for C2 at the empty store, at a store whose only chunk scores
below the threshold, and at the default `topK = 3`. -/
theorem retrieve_guarantees_witness :
    retrieveRelevantChunks [] (str "query") 3 = [] ∧
    retrieveRelevantChunks [⟨str "1", str "D", str "c", [str "zzz"], 0, 1⟩]
      (str "cat") 3 = [] ∧
    ((retrieveRelevantChunks [] (str "query") 3).length : Int) ≤ 3 :=
  ⟨(retrieve_guarantees [] (str "query") 3).2.1 rfl,
   (retrieve_guarantees [⟨str "1", str "D", str "c", [str "zzz"], 0, 1⟩]
      (str "cat") 3).2.2.1 (by decide),
   (retrieve_guarantees [] (str "query") 3).2.2.2 (by decide)⟩

/-- Counterexample to C2 as stated: with two above-threshold candidates
and `topK = -1`, `slice(0, -1)` keeps one source, which is not "at most
`topK`" for the negative integer `topK = -1`. -/
theorem retrieve_negative_topK_cex :
    (retrieveRelevantChunks
        [⟨str "1", str "D", str "c", [str "cat sat mat", str "cat sat mat two"], 0, 1⟩]
        (str "cat sat mat") (-1)).length = 1 ∧
    ¬ (((retrieveRelevantChunks
        [⟨str "1", str "D", str "c", [str "cat sat mat", str "cat sat mat two"], 0, 1⟩]
        (str "cat sat mat") (-1)).length : Int) ≤ -1) := by
  have hc : collectCandidates
      [⟨str "1", str "D", str "c", [str "cat sat mat", str "cat sat mat two"], 0, 1⟩]
      (str "cat sat mat")
      = [⟨str "cat sat mat", str "D", mkRat 1 1⟩,
         ⟨str "cat sat mat two", str "D", mkRat 1 1⟩] := by
    decide
  have hlen : (retrieveRelevantChunks
      [⟨str "1", str "D", str "c", [str "cat sat mat", str "cat sat mat two"], 0, 1⟩]
      (str "cat sat mat") (-1)).length = 1 := by
    unfold retrieveRelevantChunks
    rw [hc, List.mergeSort_of_sorted (by decide)]
    rfl
  refine ⟨hlen, ?_⟩
  rw [hlen]
  decide

/-! ## C7 -/

/-- C7: for every store, query, and `topK`, the retrieve output is sorted
by `relevance` in descending order. -/
theorem retrieve_sorted_desc (docs : List Document) (q : Str) (k : Int) :
    (retrieveRelevantChunks docs q k).Pairwise
      (fun a b => b.relevance ≤ a.relevance) := by
  unfold retrieveRelevantChunks
  rw [List.pairwise_map]
  have h1 : ((collectCandidates docs q).mergeSort candLE).Pairwise
      (fun a b => candLE a b) :=
    List.sorted_mergeSort candLE_trans candLE_total _
  have h2 : (((collectCandidates docs q).mergeSort candLE).take
      (jsSliceBound k (((collectCandidates docs q).mergeSort candLE).length))).Pairwise
      (fun a b => candLE a b) :=
    List.Pairwise.sublist (List.take_sublist _ _) h1
  exact h2.imp (fun h => by
    simpa only [candLE, decide_eq_true_eq] using h)

/-! ## C10 -/

theorem filter_mergeSort_eq (cands : List Candidate) (s : ℚ) :
    ((cands.mergeSort candLE).filter (fun c => c.score == s))
      = cands.filter (fun c => c.score == s) := by
  have hpair : (cands.filter (fun c => c.score == s)).Pairwise (fun a b => candLE a b) := by
    apply List.pairwise_of_forall_mem_list
    intro a ha b hb
    have ha2 : a.score = s := by simpa using (List.mem_filter.mp ha).2
    have hb2 : b.score = s := by simpa using (List.mem_filter.mp hb).2
    simp [candLE, ha2, hb2]
  have hsub : List.Sublist (cands.filter (fun c => c.score == s)) cands :=
    List.filter_sublist _
  have h1 : List.Sublist (cands.filter (fun c => c.score == s))
      (cands.mergeSort candLE) :=
    List.sublist_mergeSort candLE_trans candLE_total hpair hsub
  have h2 : (cands.filter (fun c => c.score == s)).filter (fun c => c.score == s)
      = cands.filter (fun c => c.score == s) :=
    List.filter_eq_self.mpr (fun c hc => (List.mem_filter.mp hc).2)
  have h3 : List.Sublist (cands.filter (fun c => c.score == s))
      ((cands.mergeSort candLE).filter (fun c => c.score == s)) :=
    h2 ▸ (h1.filter _)
  have h4 : ((cands.mergeSort candLE).filter (fun c => c.score == s)).length
      = (cands.filter (fun c => c.score == s)).length :=
    (((List.mergeSort_perm cands candLE)).filter _).length_eq
  exact (h3.eq_of_length h4.symm).symm

/-- C10: ties keep store order.  For any equal score `s`, the sources the
retriever returns with relevance `s` form an initial segment of the
candidates with score `s` in collection order — documents in store order,
chunks in document order — because the candidate scan collects them in
that order and the (ES2019-stable) sort compares only scores. -/
theorem retrieve_stable_ties (docs : List Document) (q : Str) (k : Int) (s : ℚ) :
    listLeads
      ((retrieveRelevantChunks docs q k).filter (fun src => src.relevance == s))
      (((collectCandidates docs q).filter (fun c => c.score == s)).map toSource) := by
  unfold retrieveRelevantChunks
  rw [List.filter_map]
  refine ⟨((((collectCandidates docs q).mergeSort candLE).drop
      (jsSliceBound k (((collectCandidates docs q).mergeSort candLE).length))).filter
        (fun c => c.score == s)).map toSource, ?_⟩
  rw [← List.map_append]
  show (((((collectCandidates docs q).mergeSort candLE).take
        (jsSliceBound k (((collectCandidates docs q).mergeSort candLE).length))).filter
          (fun c => c.score == s))
      ++ ((((collectCandidates docs q).mergeSort candLE).drop
        (jsSliceBound k (((collectCandidates docs q).mergeSort candLE).length))).filter
          (fun c => c.score == s))).map toSource
      = ((collectCandidates docs q).filter (fun c => c.score == s)).map toSource
  rw [← List.filter_append, List.take_append_drop, filter_mergeSort_eq]

/-! ## C5 -/

theorem jsTrim_eq_nil_iff (s : Str) :
    jsTrim s = [] ↔ ∀ c ∈ s, isSpaceJS c = true := by
  unfold jsTrim
  rw [List.reverse_eq_nil_iff, List.dropWhile_eq_nil_iff]
  simp only [List.mem_reverse]
  constructor
  · intro h c hc
    have hsplit := List.takeWhile_append_dropWhile isSpaceJS s
    rw [← hsplit] at hc
    rcases List.mem_append.mp hc with h1 | h2
    · exact List.mem_takeWhile_imp h1
    · exact h c h2
  · intro h c hc
    exact h c ((List.dropWhile_sublist _).subset hc)

theorem jsTrim_ne_nil (s : Str) (h : ∃ c ∈ s, isSpaceJS c = false) :
    jsTrim s ≠ [] := by
  obtain ⟨c, hc, hcf⟩ := h
  intro hnil
  have := (jsTrim_eq_nil_iff s).mp hnil c hc
  rw [hcf] at this
  cases this

theorem exists_nonspace_of_trim_ne_nil (s : Str) (h : jsTrim s ≠ []) :
    ∃ c ∈ s, isSpaceJS c = false := by
  by_contra hno
  push_neg at hno
  refine h ((jsTrim_eq_nil_iff s).mpr fun c hc => ?_)
  have := hno c hc
  cases hsp : isSpaceJS c
  · exact absurd hsp this
  · rfl

theorem chunkLoop_invariant (cs k : Nat) (sents : List Str) (cur : Str)
    (hs : ∀ s ∈ sents, ∃ c ∈ s, isSpaceJS c = false)
    (hc : cur = [] ∨ ∃ c ∈ cur, isSpaceJS c = false) :
    (∀ ch ∈ (chunkLoop cs k sents cur).1, ch ≠ []) ∧
    ((chunkLoop cs k sents cur).2 = [] ∨
      ∃ c ∈ (chunkLoop cs k sents cur).2, isSpaceJS c = false) := by
  induction sents generalizing cur with
  | nil =>
    exact ⟨fun ch h => absurd h (List.not_mem_nil ch), hc⟩
  | cons s rest ih =>
    have hsrest : ∀ t ∈ rest, ∃ c ∈ t, isSpaceJS c = false :=
      fun t ht => hs t (List.mem_cons_of_mem s ht)
    have hshead : ∃ c ∈ s, isSpaceJS c = false := hs s (List.mem_cons_self s rest)
    simp only [chunkLoop]
    by_cases hb : cur.length + s.length > cs ∧ cur.length > 0
    · rw [if_pos hb]
      have hcur_ne : cur ≠ [] := by
        intro hnil
        rw [hnil] at hb
        exact absurd hb.2 (by simp)
      have hcur_nonspace : ∃ c ∈ cur, isSpaceJS c = false := hc.resolve_left hcur_ne
      have hseed : (joinSpace (jsSliceLast k (splitChar ' ' cur)) ++ ' ' :: s) = [] ∨
          ∃ c ∈ joinSpace (jsSliceLast k (splitChar ' ' cur)) ++ ' ' :: s,
            isSpaceJS c = false := by
        right
        obtain ⟨c, hcs, hcf⟩ := hshead
        exact ⟨c, List.mem_append_right _ (List.mem_cons_of_mem _ hcs), hcf⟩
      have ihh := ih (joinSpace (jsSliceLast k (splitChar ' ' cur)) ++ ' ' :: s) hsrest hseed
      refine ⟨?_, ihh.2⟩
      intro ch hch
      rcases List.mem_cons.mp hch with h1 | h2
      · rw [h1]
        exact jsTrim_ne_nil cur hcur_nonspace
      · exact ihh.1 ch h2
    · rw [if_neg hb]
      by_cases he : cur.isEmpty
      · rw [if_pos he]
        exact ih s hsrest (Or.inr hshead)
      · rw [if_neg he]
        refine ih (cur ++ sepDot ++ s) hsrest (Or.inr ?_)
        obtain ⟨c, hcs, hcf⟩ := hshead
        exact ⟨c, List.mem_append_right _ hcs, hcf⟩

theorem assembleFinal_ne_nil (cks : List Str) (text : Str) (h : text ≠ [])
    (hall : ∀ c ∈ cks, c ≠ []) :
    (if cks.isEmpty then [text] else cks) ≠ [] ∧
    ∀ c ∈ (if cks.isEmpty then [text] else cks), c ≠ [] := by
  by_cases he : cks.isEmpty
  · rw [if_pos he]
    refine ⟨List.cons_ne_nil _ _, fun c hc => ?_⟩
    rw [List.mem_singleton] at hc
    rw [hc]
    exact h
  · rw [if_neg he]
    refine ⟨?_, hall⟩
    intro hnil
    rw [hnil] at he
    exact he rfl

theorem appendTrim_ne_nil (chunks : List Str) (fin : Str)
    (hall : ∀ c ∈ chunks, c ≠ []) :
    ∀ c ∈ (if (jsTrim fin).isEmpty then chunks else chunks ++ [jsTrim fin]), c ≠ [] := by
  by_cases he : (jsTrim fin).isEmpty
  · rw [if_pos he]
    exact hall
  · rw [if_neg he]
    intro c hc
    rcases List.mem_append.mp hc with h1 | h2
    · exact hall c h1
    · rw [List.mem_singleton] at h2
      rw [h2]
      intro hnil
      rw [hnil] at he
      exact he rfl

theorem chunkText_unfold (text : Str) (cs ov : Nat) (sents : List Str)
    (r : List Str × Str) (cks : List Str)
    (h1 : (splitRuns isPunctJS text).filter (fun s => (jsTrim s).length > 0) = sents)
    (h2 : chunkLoop cs (ov / 10) sents [] = r)
    (h3 : (if (jsTrim r.2).isEmpty then r.1 else r.1 ++ [jsTrim r.2]) = cks) :
    chunkText text cs ov = if cks.isEmpty then [text] else cks := by
  subst h1
  subst h2
  subst h3
  rfl

/-- C5: for every non-empty input text (and any chunk size and overlap),
`chunkText` returns a non-empty sequence of non-empty strings; and when
the sentence-accumulation pass (the loop plus the final flush) produces
zero chunks, the original full text is returned as the single fallback
chunk. -/
theorem chunkText_nonempty (text : Str) (cs ov : Nat) (h : text ≠ []) :
    chunkText text cs ov ≠ [] ∧ (∀ c ∈ chunkText text cs ov, c ≠ []) ∧
    ((if (jsTrim (chunkLoop cs (ov / 10)
          ((splitRuns isPunctJS text).filter (fun s => (jsTrim s).length > 0)) []).2).isEmpty
        then (chunkLoop cs (ov / 10)
          ((splitRuns isPunctJS text).filter (fun s => (jsTrim s).length > 0)) []).1
        else (chunkLoop cs (ov / 10)
          ((splitRuns isPunctJS text).filter (fun s => (jsTrim s).length > 0)) []).1
          ++ [jsTrim (chunkLoop cs (ov / 10)
          ((splitRuns isPunctJS text).filter (fun s => (jsTrim s).length > 0)) []).2]) = [] →
      chunkText text cs ov = [text]) := by
  have hs : ∀ s ∈ (splitRuns isPunctJS text).filter (fun s => (jsTrim s).length > 0),
      ∃ c ∈ s, isSpaceJS c = false := by
    intro s hsmem
    have h2 := (List.mem_filter.mp hsmem).2
    have h3 : jsTrim s ≠ [] := by
      intro hnil
      rw [hnil] at h2
      simp at h2
    exact exists_nonspace_of_trim_ne_nil s h3
  have hloop := chunkLoop_invariant cs (ov / 10)
    ((splitRuns isPunctJS text).filter (fun s => (jsTrim s).length > 0)) [] hs (Or.inl rfl)
  refine ⟨(assembleFinal_ne_nil _ text h (appendTrim_ne_nil _ _ hloop.1)).1,
    (assembleFinal_ne_nil _ text h (appendTrim_ne_nil _ _ hloop.1)).2, ?_⟩
  intro hcks
  rw [chunkText_unfold text cs ov _ _ [] rfl rfl hcks]
  rfl

/-- Witness for C5 at a concrete non-empty text on which the sentence
pass produces zero chunks, so the fallback fires. -/
theorem chunkText_nonempty_witness :
    chunkText (str ".") 500 50 ≠ [] ∧ (∀ c ∈ chunkText (str ".") 500 50, c ≠ []) ∧
    chunkText (str ".") 500 50 = [str "."] :=
  ⟨(chunkText_nonempty (str ".") 500 50 (by decide)).1,
   (chunkText_nonempty (str ".") 500 50 (by decide)).2.1,
   (chunkText_nonempty (str ".") 500 50 (by decide)).2.2 (by decide)⟩

/-! ## C6 -/

theorem splitRuns_no_sep (p : Char → Bool) (l : Str) (h : ∀ c ∈ l, p c = false) :
    splitRuns p l = [l] := by
  induction l with
  | nil => rfl
  | cons c cstail ih =>
    have hc : p c = false := h c (List.mem_cons_self _ _)
    have ih2 := ih fun d hd => h d (List.mem_cons_of_mem _ hd)
    simp only [splitRuns, hc]
    rw [ih2]
    rfl

theorem chunkText_no_punct (text : Str) (cs ov : Nat)
    (hp : ∀ c ∈ text, isPunctJS c = false) :
    chunkText text cs ov = if jsTrim text = [] then [text] else [jsTrim text] := by
  have hsplit := splitRuns_no_sep isPunctJS text hp
  by_cases ht : jsTrim text = []
  · rw [if_pos ht]
    have h1 : (splitRuns isPunctJS text).filter (fun s => (jsTrim s).length > 0) = [] := by
      rw [hsplit]
      simp [ht]
    rw [chunkText_unfold text cs ov [] ([], []) [] h1 rfl rfl]
    rfl
  · rw [if_neg ht]
    have h1 : (splitRuns isPunctJS text).filter (fun s => (jsTrim s).length > 0)
        = [text] := by
      rw [hsplit]
      simp
      exact List.length_pos.mpr ht
    have h2 : chunkLoop cs (ov / 10) [text] [] = ([], text) := by
      simp only [chunkLoop]
      rw [if_neg (fun hcontra => Nat.lt_irrefl 0 hcontra.2)]
      rfl
    have hne : (jsTrim text).isEmpty = false := by
      cases htt : jsTrim text with
      | nil => exact absurd htt ht
      | cons a l => rfl
    have h3 : (if (jsTrim (([], text) : List Str × Str).2).isEmpty
        then (([], text) : List Str × Str).1
        else (([], text) : List Str × Str).1 ++ [jsTrim (([], text) : List Str × Str).2])
        = [jsTrim text] := by
      simp only [hne]
      rfl
    rw [chunkText_unfold text cs ov [text] ([], text) [jsTrim text] h1 h2 h3]
    rfl

/-- C6: corrected form.  For any 1200-character text with no sentence
terminator, `chunkText` with `chunkSize = 500`, `overlap = 50` returns
exactly one chunk, namely the trimmed text (or the raw text when trimming
empties it); the chunk exceeds `chunkSize` whenever the trimmed text still
has more than 500 characters, but not in general: leading/trailing
whitespace is removed, so the single chunk can be shorter than the input. -/
theorem chunkText_long_sentence (text : Str) (hlen : text.length = 1200)
    (hp : ∀ c ∈ text, isPunctJS c = false) :
    ∃ c, chunkText text 500 50 = [c] ∧
      (c = jsTrim text ∨ c = text) ∧
      (c = text → c.length = 1200) ∧
      (500 < (jsTrim text).length → 500 < c.length) := by
  rw [chunkText_no_punct text 500 50 hp]
  by_cases ht : jsTrim text = []
  · rw [if_pos ht]
    refine ⟨text, rfl, Or.inr rfl, fun _ => hlen, fun hgt => absurd hgt ?_⟩
    rw [ht]
    simp
  · rw [if_neg ht]
    exact ⟨jsTrim text, rfl, Or.inl rfl, fun hc => by rw [hc, hlen], fun hgt => hgt⟩

/-- Witness for C6's amended statement at a concrete 1200-character
sentence without terminal punctuation. -/
theorem chunkText_long_sentence_witness :
    ∃ c, chunkText (List.replicate 1200 'a') 500 50 = [c] ∧
      (c = jsTrim (List.replicate 1200 'a') ∨ c = List.replicate 1200 'a') ∧
      (c = List.replicate 1200 'a' → c.length = 1200) ∧
      (500 < (jsTrim (List.replicate 1200 'a')).length → 500 < c.length) :=
  chunkText_long_sentence (List.replicate 1200 'a') (List.length_replicate 1200 'a')
    (fun c hc => by rw [List.eq_of_mem_replicate hc]; rfl)

theorem dropWhile_replicate_space (n : Nat) (l : Str) :
    (List.replicate n ' ' ++ l).dropWhile isSpaceJS = l.dropWhile isSpaceJS := by
  induction n with
  | zero => simp
  | succ n ih =>
    have hsp : isSpaceJS ' ' = true := rfl
    simp [List.replicate_succ, List.dropWhile_cons, hsp, ih]

theorem dropWhile_replicate_a (n : Nat) :
    (List.replicate n 'a').dropWhile isSpaceJS = List.replicate n 'a' := by
  cases n with
  | zero => rfl
  | succ n =>
    have hsp : isSpaceJS 'a' = false := rfl
    simp [List.replicate_succ, List.dropWhile_cons, hsp]

theorem jsTrim_cex : jsTrim (List.replicate 1100 ' ' ++ List.replicate 100 'a')
    = List.replicate 100 'a' := by
  unfold jsTrim
  rw [dropWhile_replicate_space, dropWhile_replicate_a, List.reverse_replicate,
    dropWhile_replicate_a, List.reverse_replicate]

/-- Counterexample to C6 as stated: a 1200-character "sentence" that is
1100 spaces followed by 100 letters contains no terminal punctuation, and
`chunkText` returns exactly one chunk — but the chunk is the trimmed text
of length 100, which does not exceed `chunkSize = 500`. -/
theorem chunkText_long_sentence_cex :
    (List.replicate 1100 ' ' ++ List.replicate 100 'a').length = 1200 ∧
    (∀ c ∈ List.replicate 1100 ' ' ++ List.replicate 100 'a', isPunctJS c = false) ∧
    chunkText (List.replicate 1100 ' ' ++ List.replicate 100 'a') 500 50
      = [List.replicate 100 'a'] ∧
    ¬ (500 < (List.replicate 100 'a').length) := by
  have hp : ∀ c ∈ List.replicate 1100 ' ' ++ List.replicate 100 'a',
      isPunctJS c = false := by
    intro c hc
    rcases List.mem_append.mp hc with h1 | h1
    · rw [List.eq_of_mem_replicate h1]
      rfl
    · rw [List.eq_of_mem_replicate h1]
      rfl
  refine ⟨by norm_num, hp, ?_, by norm_num⟩
  rw [chunkText_no_punct _ 500 50 hp, jsTrim_cex]
  rw [if_neg (fun h => by
    have h2 := congrArg List.length h
    simp at h2)]

end RAG
